import Mathlib

/-!
Verification development for the nanotune benchmark evaluation engine.

Shallow embedding of the answer-matching strategies, the per-test benchmark
loop with its category/latency aggregation (src/commands/benchmark.tsx), and
the LLM-judge protocol (src/lib/judge.ts).  Strings are modelled as `List
Char`; JavaScript's implicit iteration/truthiness is made explicit.
-/

/-- Strings are modelled as lists of characters. -/
abbrev Str := List Char

/-- Models the JavaScript `\s` character class (also used by `String.trim`):
ASCII whitespace plus the Unicode space separators JS recognises. -/
def isJsWS (c : Char) : Bool :=
  c = ' ' || c = '\t' || c = '\n' || c = '\r' || c = '\x0b' || c = '\x0c' ||
  c.toNat = 0xa0 || c.toNat = 0x1680 ||
  (0x2000 ≤ c.toNat && c.toNat ≤ 0x200a) ||
  c.toNat = 0x2028 || c.toNat = 0x2029 || c.toNat = 0x202f ||
  c.toNat = 0x205f || c.toNat = 0x3000 || c.toNat = 0xfeff

/-- Models JavaScript `String.prototype.trim`: drop leading and trailing
whitespace. -/
def trimJS (s : Str) : Str :=
  ((s.dropWhile isJsWS).reverse.dropWhile isJsWS).reverse

/-- Helper for `collapseWS`: `inRun` records whether the previous character
was whitespace (so a run of whitespace emits a single space). -/
def collapseWSAux : Bool → Str → Str
  | _, [] => []
  | inRun, c :: cs =>
    if isJsWS c then
      if inRun then collapseWSAux true cs else ' ' :: collapseWSAux true cs
    else
      c :: collapseWSAux false cs

/-- Models `.replace(/\s+/g, ' ')`: every maximal run of whitespace becomes a
single space. -/
def collapseWS (s : Str) : Str := collapseWSAux false s

/-- Models `.replace(/["'`]/g, '"')`: double quote, single quote and backtick
all become a double quote. -/
def replaceQuotes (s : Str) : Str :=
  s.map fun c => if c = '"' || c = Char.ofNat 39 || c = Char.ofNat 96 then '"' else c

/-- `normalizeText` from src/commands/benchmark.tsx: trim, collapse whitespace
runs to one space, canonicalise quotes. -/
def normalizeText (s : Str) : Str := replaceQuotes (collapseWS (trimJS s))

/-- Models `String.prototype.toLowerCase` for the ASCII range (the benchmark
strings exercised here are ASCII). -/
def toLowerJS (s : Str) : Str := s.map Char.toLower

/-- The `processText` closure inside `checkPass`: trim, then lowercase unless
`caseSensitive`. -/
def processText (caseSensitive : Bool) (s : Str) : Str :=
  let t := trimJS s
  if caseSensitive then t else toLowerJS t

/-- Models `String.prototype.includes`: does `needle` occur contiguously
anywhere inside the second argument? -/
def includesSub (needle : Str) : Str → Bool
  | [] => decide (needle = [])
  | c :: rest => needle.isPrefixOf (c :: rest) || includesSub needle rest

/-- The `MatchMode` union from src/types/index.ts. -/
inductive MatchMode
  | exact
  | contains
  | startsWith
  | semantic
  | llmJudge
deriving DecidableEq

/-- Return type of `checkPass`. -/
structure MatchResult where
  passed : Bool
  matchedAnswer : Option Str
  matchType : Option String
deriving DecidableEq

/-- One iteration of the `for (const expected of acceptable)` loop in
`checkPass`: `some r` models an early `return r`, `none` models falling
through to the next acceptable answer.  The `semantic` and `llmJudge` modes
share an arm because the source's `switch` grades them both in the
`case 'semantic': default:` arm. -/
def matchOne (mode : MatchMode) (caseSensitive : Bool)
    (actualProcessed actualNormalized : Str) (expected : Str) : Option MatchResult :=
  let expectedProcessed := processText caseSensitive expected
  let expectedNormalized := normalizeText expectedProcessed
  match mode with
  | MatchMode.exact =>
    if actualProcessed = expectedProcessed then
      some ⟨true, some expected, some "exact"⟩
    else none
  | MatchMode.contains =>
    if includesSub expectedNormalized actualNormalized then
      some ⟨true, some expected, some "contains"⟩
    else none
  | MatchMode.startsWith =>
    if expectedNormalized.isPrefixOf actualNormalized then
      some ⟨true, some expected, some "startsWith"⟩
    else none
  | MatchMode.semantic | MatchMode.llmJudge =>
    if actualNormalized = expectedNormalized then
      some ⟨true, some expected, some "exact"⟩
    else if (expectedNormalized ++ [' ']).isPrefixOf actualNormalized
        || (expectedNormalized ++ [':']).isPrefixOf actualNormalized
        || (expectedNormalized ++ ['\n']).isPrefixOf actualNormalized then
      some ⟨true, some expected, some "startsWith"⟩
    else if (actualNormalized ++ [' ']).isPrefixOf expectedNormalized
        || actualNormalized.isPrefixOf expectedNormalized then
      some ⟨true, some expected, some "partial"⟩
    else none

/-- The loop of `checkPass` over the acceptable answers; the first answer on
which `matchOne` returns a result wins. -/
def checkPassAux (mode : MatchMode) (caseSensitive : Bool)
    (actualProcessed actualNormalized : Str) : List Str → MatchResult
  | [] => ⟨false, none, none⟩
  | e :: rest =>
    match matchOne mode caseSensitive actualProcessed actualNormalized e with
    | some r => r
    | none => checkPassAux mode caseSensitive actualProcessed actualNormalized rest

/-- `checkPass` from src/commands/benchmark.tsx. -/
def checkPass (acceptable : List Str) (actual : Str) (mode : MatchMode)
    (caseSensitive : Bool) : MatchResult :=
  checkPassAux mode caseSensitive (processText caseSensitive actual)
    (normalizeText (processText caseSensitive actual)) acceptable

/-- A benchmark test case (`BenchmarkTest` in src/types/index.ts); `matchMode`
and `caseSensitive` are optional in the JSON dataset. -/
structure BenchTest where
  id : Nat
  prompt : String
  acceptable : List Str
  category : String
  matchMode : Option MatchMode
  caseSensitive : Option Bool
deriving DecidableEq

/-- Settled outcome of `Promise.race([runGGUFInference ...], timeoutPromise)`
for one test: either the inference resolved with response text, or the race
rejected.  A rejection carries the thrown `Error`'s message (`some m`; the
timeout path throws `new Error('Timeout')`), or `none` for a non-`Error`
throw.  `latencyMs` is the measured `Date.now()` difference, which the
runner records in both branches. -/
inductive InferOutcome
  | completed (text : Str) (latencyMs : Nat)
  | failed (errMsg : Option String) (latencyMs : Nat)
deriving DecidableEq

/-- The `response` string the runner holds after the try/catch: the raw
inference text on success, `"Error: " + message` for a thrown `Error`,
`"Unknown error"` for a non-`Error` throw. -/
def responseOf : InferOutcome → Str
  | InferOutcome.completed t _ => t
  | InferOutcome.failed (some m) _ => ("Error: ").toList ++ m.toList
  | InferOutcome.failed none _ => ("Unknown error").toList

/-- The latency the runner records for the outcome. -/
def latencyOf : InferOutcome → Nat
  | InferOutcome.completed _ l => l
  | InferOutcome.failed _ l => l

/-- Whether the runner marks the test passed: on a completed response it asks
`checkPass` (with `test.match || 'semantic'` and `test.caseSensitive ?? false`);
any rejection leaves `passed = false`. -/
def testPassed (t : BenchTest) (o : InferOutcome) : Bool :=
  match o with
  | InferOutcome.completed text _ =>
    (checkPass t.acceptable (trimJS text) (t.matchMode.getD MatchMode.semantic)
      (t.caseSensitive.getD false)).passed
  | InferOutcome.failed _ _ => false

/-- One entry of `allResults` (`BenchmarkTestResult`); `actual` is
`response.trim()`. -/
structure TestResultR where
  id : Nat
  prompt : String
  expected : List Str
  actual : Str
  passed : Bool
  category : String
  latencyMs : Nat
deriving DecidableEq

/-- The `allResults.push({...})` record built for one test. -/
def recordRow (t : BenchTest) (o : InferOutcome) : TestResultR :=
  ⟨t.id, t.prompt, t.acceptable, trimJS (responseOf o), testPassed t o,
    t.category, latencyOf o⟩

/-- One bucket of `categoryResults`. -/
structure CategoryResult where
  passed : Nat
  total : Nat
deriving DecidableEq

/-- The per-test category update: create the bucket on first sight (object
property insertion order, i.e. appended at the end), bump `total`, and bump
`passed` when the test passed. -/
def bumpCategory (cat : String) (didPass : Bool) :
    List (String × CategoryResult) → List (String × CategoryResult)
  | [] => [(cat, ⟨if didPass then 1 else 0, 1⟩)]
  | (k, v) :: rest =>
    if k = cat then
      (k, ⟨v.passed + (if didPass then 1 else 0), v.total + 1⟩) :: rest
    else
      (k, v) :: bumpCategory cat didPass rest

/-- The `categoryResults` map after the whole loop. -/
def categoriesOf (rows : List (BenchTest × InferOutcome)) :
    List (String × CategoryResult) :=
  rows.foldl (fun m p => bumpCategory p.1.category (testPassed p.1 p.2) m) []

/-- A compact entry of the `failures` list. -/
structure FailureR where
  id : Nat
  prompt : String
  expected : List Str
  actual : Str
deriving DecidableEq

/-- The failure record pushed for one test, when any: the success branch
pushes `response.trim()` for a non-passing match, the catch branch pushes the
raw error string. -/
def failureOf (t : BenchTest) (o : InferOutcome) : Option FailureR :=
  match o with
  | InferOutcome.completed text _ =>
    if testPassed t o then none
    else some ⟨t.id, t.prompt, t.acceptable, trimJS text⟩
  | InferOutcome.failed _ _ => some ⟨t.id, t.prompt, t.acceptable, responseOf o⟩

/-- The prefix that marks an error/timeout response in `allResults`. -/
def errMarker : Str := ("Error:").toList

/-- Models `Math.round` on a rational: half-up rounding, i.e. the floor of
`q + 1/2`, computed on the exact fraction. -/
def jsRound (q : Rat) : Int :=
  Int.fdiv (2 * q.num + (q.den : Int)) (2 * (q.den : Int))

/-- The `summary` object of a finished run.  `passRate` is `passed / total`;
the source's division by zero on an empty run (JS `NaN`) is modelled as
`none`. -/
structure SummaryR where
  total : Nat
  passed : Nat
  failed : Nat
  passRate : Option Rat
  avgLatencyMs : Option Int
deriving DecidableEq

/-- A finished `BenchmarkResult` (model identifier/timestamp elided). -/
structure BenchmarkResultR where
  summary : SummaryR
  categories : List (String × CategoryResult)
  results : List TestResultR
  failures : List FailureR
deriving DecidableEq

/-- The benchmark loop of `BenchmarkCommand.run` plus its final aggregation,
over the per-test inference outcomes.  The loop body touches three
independent accumulators, modelled separately: `allResults` (one record per
test), `categoryResults` (the fold), and `failures`.  The summary follows the
source: `totalPassed` sums the category buckets, `validLatencies` keeps tests
with truthy `latencyMs` whose recorded `actual` does not start with
`"Error:"`, and the average is `Math.round`ed. -/
def runBenchmark (rows : List (BenchTest × InferOutcome)) : BenchmarkResultR :=
  let allResults := rows.map fun p => recordRow p.1 p.2
  let categoryResults := categoriesOf rows
  let fails := rows.filterMap fun p => failureOf p.1 p.2
  let totalPassed := (categoryResults.map fun kv => kv.2.passed).sum
  let totalTests := rows.length
  let validLatencies : List Nat :=
    (allResults.filter fun r =>
      (r.latencyMs != 0) && !(errMarker.isPrefixOf r.actual)).map
      fun r => r.latencyMs
  let avg : Option Int :=
    if validLatencies.length ≠ 0 then
      some (jsRound (mkRat validLatencies.sum validLatencies.length))
    else none
  ⟨⟨totalTests, totalPassed, totalTests - totalPassed,
      (if totalTests = 0 then none else some (mkRat totalPassed totalTests)),
      avg⟩,
    categoryResults, allResults, fails⟩

/-- Recursive lookup in the category map, with the "absent" reading `⟨0, 0⟩`. -/
def lookupCategory : List (String × CategoryResult) → String → CategoryResult
  | [], _ => ⟨0, 0⟩
  | (k, v) :: rest, c => if k = c then v else lookupCategory rest c

/-- JSON values as produced by `JSON.parse`.  Numbers are modelled as exact
rationals (JS float precision loss is irrelevant to the clamping and
comparison behaviour verified here). -/
inductive Json
  | null
  | bool (b : Bool)
  | num (q : Rat)
  | str (s : Str)
  | arr (elems : List Json)
  | obj (fields : List (Str × Json))

/-- JSON whitespace (the only characters `JSON.parse` skips between tokens). -/
def isJsonWS (c : Char) : Bool :=
  c = ' ' || c = '\t' || c = '\n' || c = '\r'

/-- Drop JSON whitespace. -/
def skipWS (s : Str) : Str := s.dropWhile isJsonWS

/-- ASCII digit test. -/
def isDigitCh (c : Char) : Bool := '0' ≤ c && c ≤ '9'

/-- Hexadecimal digit test. -/
def isHexCh (c : Char) : Bool :=
  isDigitCh c || ('a' ≤ c && c ≤ 'f') || ('A' ≤ c && c ≤ 'F')

/-- Value of a hexadecimal digit. -/
def hexVal (c : Char) : Nat :=
  if isDigitCh c then c.toNat - ('0').toNat
  else if 'a' ≤ c && c ≤ 'f' then c.toNat - ('a').toNat + 10
  else c.toNat - ('A').toNat + 10

/-- Numeric value of a digit string. -/
def natOfDigits (ds : Str) : Nat :=
  ds.foldl (fun a c => a * 10 + (c.toNat - ('0').toNat)) 0

/-- Single-character JSON string escapes. -/
def escCh (c : Char) : Option Char :=
  if c = '"' then some '"'
  else if c = '\\' then some '\\'
  else if c = '/' then some '/'
  else if c = 'b' then some '\x08'
  else if c = 'f' then some '\x0c'
  else if c = 'n' then some '\n'
  else if c = 'r' then some '\r'
  else if c = 't' then some '\t'
  else none

/-- Parse the body of a JSON string after the opening quote; returns the
decoded characters and the remaining input after the closing quote.
Unescaped control characters are invalid; `\"uXXXX\"` escapes decode through
`Char.ofNat` (lone surrogates, which Lean's `Char` cannot carry, degrade to
`Char.ofNat`'s default — irrelevant to the replies verified here). -/
def parseStringBody : Str → Option (Str × Str)
  | [] => none
  | c :: rest =>
    if c = '"' then some ([], rest)
    else if c = '\\' then
      match rest with
      | [] => none
      | e :: rest2 =>
        match escCh e with
        | some ec => (parseStringBody rest2).map fun p => (ec :: p.1, p.2)
        | none =>
          if e = 'u' then
            match rest2 with
            | h1 :: h2 :: h3 :: h4 :: rest3 =>
              if isHexCh h1 && isHexCh h2 && isHexCh h3 && isHexCh h4 then
                (parseStringBody rest3).map fun p =>
                  (Char.ofNat (((hexVal h1 * 16 + hexVal h2) * 16 + hexVal h3) * 16 + hexVal h4) :: p.1, p.2)
              else none
            | _ => none
          else none
    else if c.toNat < 32 then none
    else (parseStringBody rest).map fun p => (c :: p.1, p.2)

/-- Parse an optional fraction part (`.digits`). -/
def parseFracPart : Str → Option (Str × Str)
  | '.' :: r =>
    let p := r.span isDigitCh
    if p.1 = [] then none else some p
  | s => some ([], s)

/-- Parse an optional exponent part (`e`/`E`, optional sign, digits). -/
def parseExpPart : Str → Option (Int × Str)
  | [] => some (0, [])
  | c :: r =>
    if c = 'e' || c = 'E' then
      let signed : Int × Str :=
        match r with
        | '+' :: rr => (1, rr)
        | '-' :: rr => (-1, rr)
        | _ => (1, r)
      let p := signed.2.span isDigitCh
      if p.1 = [] then none
      else some (signed.1 * (natOfDigits p.1 : Int), p.2)
    else some (0, c :: r)

/-- Parse a JSON number (optional minus, integer part with no leading zeros,
optional fraction, optional exponent).  The value is assembled with `mkRat`,
the exact rational `mantissa * 10 ^ (exponent - fractionDigits)`. -/
def parseNumber (s : Str) : Option (Rat × Str) :=
  let signed : Bool × Str := match s with | '-' :: r => (true, r) | _ => (false, s)
  let ip := signed.2.span isDigitCh
  if ip.1 = [] then none
  else if 1 < ip.1.length && ip.1.head? = some '0' then none
  else
    match parseFracPart ip.2 with
    | none => none
    | some (fds, s3) =>
      match parseExpPart s3 with
      | none => none
      | some (e, s4) =>
        let mantissa : Int :=
          (if signed.1 then -1 else 1) * (natOfDigits (ip.1 ++ fds) : Int)
        let scale : Int := e - (fds.length : Int)
        let q : Rat :=
          if 0 ≤ scale then mkRat (mantissa * 10 ^ scale.toNat) 1
          else mkRat mantissa (10 ^ scale.natAbs)
        some (q, s4)

mutual

/-- Fuel-indexed recursive-descent parser for one JSON value (leading
whitespace allowed); returns the value and the unconsumed input. -/
def parseValue : Nat → Str → Option (Json × Str)
  | 0, _ => none
  | Nat.succ fuel, s =>
    match skipWS s with
    | [] => none
    | c :: rest =>
      if c = '"' then (parseStringBody rest).map fun p => (Json.str p.1, p.2)
      else if c = '[' then
        match skipWS rest with
        | ']' :: r2 => some (Json.arr [], r2)
        | r2 => (parseElems fuel r2).map fun p => (Json.arr p.1, p.2)
      else if c = Char.ofNat 123 then
        match skipWS rest with
        | [] => none
        | c2 :: r2 =>
          if c2 = Char.ofNat 125 then some (Json.obj [], r2)
          else (parseMembers fuel (c2 :: r2)).map fun p => (Json.obj p.1, p.2)
      else if c = 't' then
        if ("rue").toList.isPrefixOf rest then some (Json.bool true, rest.drop 3) else none
      else if c = 'f' then
        if ("alse").toList.isPrefixOf rest then some (Json.bool false, rest.drop 4) else none
      else if c = 'n' then
        if ("ull").toList.isPrefixOf rest then some (Json.null, rest.drop 3) else none
      else if c = '-' || isDigitCh c then
        (parseNumber (c :: rest)).map fun p => (Json.num p.1, p.2)
      else none

/-- Comma-separated array elements up to the closing bracket. -/
def parseElems : Nat → Str → Option (List Json × Str)
  | 0, _ => none
  | Nat.succ fuel, s =>
    match parseValue fuel s with
    | none => none
    | some (j, r) =>
      match skipWS r with
      | ',' :: r2 => (parseElems fuel r2).map fun p => (j :: p.1, p.2)
      | ']' :: r2 => some ([j], r2)
      | _ => none

/-- Comma-separated `"key": value` members up to the closing brace. -/
def parseMembers : Nat → Str → Option (List (Str × Json) × Str)
  | 0, _ => none
  | Nat.succ fuel, s =>
    match skipWS s with
    | [] => none
    | c :: r =>
      if c = '"' then
        match parseStringBody r with
        | none => none
        | some (key, r1) =>
          match skipWS r1 with
          | ':' :: r2 =>
            match parseValue fuel r2 with
            | none => none
            | some (v, r3) =>
              match skipWS r3 with
              | [] => none
              | c5 :: r4 =>
                if c5 = ',' then (parseMembers fuel r4).map fun p => ((key, v) :: p.1, p.2)
                else if c5 = Char.ofNat 125 then some ([(key, v)], r4)
                else none
          | _ => none
      else none

end

/-- Models `JSON.parse`: one JSON value covering the whole input (up to
whitespace).  The fuel `length + 2` dominates the parser's recursion depth,
since every nested value consumes at least one character. -/
def jsonParse (s : Str) : Option Json :=
  match parseValue (s.length + 2) s with
  | some (j, rest) => if skipWS rest = [] then some j else none
  | none => none

/-- Three backticks, the code-fence delimiter. -/
def ticks : Str := [Char.ofNat 96, Char.ofNat 96, Char.ofNat 96]

/-- Suffix after the first occurrence of three backticks, if any. -/
def afterTicks : Str → Option Str
  | [] => none
  | c :: rest =>
    if ticks.isPrefixOf (c :: rest) then some ((c :: rest).drop 3)
    else afterTicks rest

/-- Characters before the first occurrence of three backticks, if any. -/
def beforeTicks : Str → Option Str
  | [] => none
  | c :: rest =>
    if ticks.isPrefixOf (c :: rest) then some []
    else (beforeTicks rest).map (c :: ·)

/-- Models the code-fence stripping of `parseJudgeResponse`: the first match
of the regex three-backticks `(json)?` `\s*` lazy-capture three-backticks, on
the already-trimmed text `t`.  Matching starts at the first fence; the
optional literal `json` and the greedy `\s*` never skip over a backtick, so
the capture ends at the next fence, and if no later fence exists the regex
fails as a whole and `t` is left unchanged. -/
def stripFence (t : Str) : Str :=
  match afterTicks t with
  | none => t
  | some rest =>
    let rest1 := if ("json").toList.isPrefixOf rest then rest.drop 4 else rest
    let rest2 := rest1.dropWhile isJsWS
    match beforeTicks rest2 with
    | some captured => trimJS captured
    | none => t

/-- A judge criterion (`JudgeCriteria` in src/types/index.ts). -/
structure JudgeCriteria where
  name : Str
  description : Str
deriving DecidableEq

/-- A judge verdict (`JudgeResult` in src/types/index.ts).  The
`criteriaScores` record is modelled as an association list in criteria
order; lookups read the first (for records built here, only) binding of a
name. -/
structure JudgeResult where
  pass : Bool
  score : Rat
  reasoning : Str
  criteriaScores : List (Str × Rat)
deriving DecidableEq

/-- `Math.max(0, Math.min(10, raw))`. -/
def clampScore (q : Rat) : Rat := max 0 (min 10 q)

/-- Reading a `criteriaScores` record: first binding of a name (the records
built by the judge protocol bind each name at most once per distinct score,
so first and last coincide). -/
def listLookup : List (Str × Rat) → Str → Option Rat
  | [], _ => none
  | (k, v) :: rest, key => if k = key then some v else listLookup rest key

/-- Last-binding-wins association lookup: `JSON.parse` keeps the last of
duplicate object keys. -/
def lookupLast : List (Str × Json) → Str → Option Json
  | [], _ => none
  | (k, v) :: rest, key =>
    match lookupLast rest key with
    | some r => some r
    | none => if k = key then some v else none

/-- Models JS property access `parsed[key]` on a parsed (non-null) JSON
value: objects look up own properties; access on numbers, strings, booleans
and arrays yields `undefined` for the property names used by the judge
protocol (exotic built-in properties such as string `length` are out of
scope).  Access on `null` throws and is modelled at the call site. -/
def jsonGet (j : Json) (key : Str) : Option Json :=
  match j with
  | Json.obj fields => lookupLast fields key
  | _ => none

/-- `parsed.scores?.[name]`. -/
def scoreField (j : Json) (nm : Str) : Option Json :=
  (jsonGet j (("scores").toList)).bind fun s => jsonGet s nm

/-- The criteria-loop body of `parseJudgeResponse`: an entry is produced only
when the raw score is a number, and it is clamped into `[0, 10]`. -/
def scoreEntryOf (j : Json) (c : JudgeCriteria) : Option (Str × Rat) :=
  match scoreField j c.name with
  | some (Json.num q) => some (c.name, clampScore q)
  | _ => none

/-- The `JudgeResult` assembled by `parseJudgeResponse` after a successful
`JSON.parse` of a non-null value. -/
def judgeResultOfJson (parsed : Json) (criteria : List JudgeCriteria)
    (passThreshold : Rat) : JudgeResult :=
  let criteriaScores := criteria.filterMap (scoreEntryOf parsed)
  let overall : Rat :=
    match jsonGet parsed (("overall").toList) with
    | some (Json.num q) => clampScore q
    | _ => 0
  { pass :=
      match jsonGet parsed (("pass").toList) with
      | some (Json.bool b) => b
      | _ => decide (passThreshold ≤ overall),
    score := overall,
    reasoning :=
      match jsonGet parsed (("reasoning").toList) with
      | some (Json.str s) => s
      | _ => [],
    criteriaScores := criteriaScores }

/-- `parseJudgeResponse` from src/lib/judge.ts: trim, strip an optional code
fence, `JSON.parse`, then extract/clamp.  A `JSON.parse` failure throws
(`SyntaxError`); a reply parsing to the JSON literal `null` also throws,
because the subsequent property accesses (`parsed.scores`, `parsed.overall`,
...) read properties of `null` (`TypeError`).  Thrown errors are modelled as
`Except.error`. -/
def parseJudgeResponse (text : Str) (criteria : List JudgeCriteria)
    (passThreshold : Rat) : Except String JudgeResult :=
  let jsonStr := stripFence (trimJS text)
  match jsonParse jsonStr with
  | none => Except.error "SyntaxError: invalid JSON"
  | some Json.null => Except.error "TypeError: cannot read properties of null"
  | some parsed => Except.ok (judgeResultOfJson parsed criteria passThreshold)

/-- `callJudge` from src/lib/judge.ts, with the awaited `generateText` call
abstracted as its settled outcome `transport` (`Except.ok reply` on success,
`Except.error e` when the provider call throws).  Only `parseJudgeResponse`
is wrapped in a try/catch in the source; a parse failure degrades to a
zeroed `JudgeResult` embedding the raw reply, while a transport error
propagates to the caller. -/
def callJudge (transport : Except String Str) (criteria : List JudgeCriteria)
    (passThreshold : Rat) : Except String JudgeResult :=
  match transport with
  | Except.error e => Except.error e
  | Except.ok text =>
    match parseJudgeResponse text criteria passThreshold with
    | Except.ok r => Except.ok r
    | Except.error _ =>
      Except.ok ⟨false, 0, ("Failed to parse judge response: ").toList ++ text, []⟩

/-- Spec-side case folding: lowercase both sides unless `caseSensitive`
(stated by §4.2 of the spec, for comparison with the implementation). -/
def specCaseFold (caseSensitive : Bool) (s : Str) : Str :=
  if caseSensitive then s else toLowerJS s

/-- Spec-side per-answer predicate: does `expected` satisfy the selected
mode's matching rule against the processed/normalized actual response?
Written from the spec's rule table (for `Semantic`, the disjunction of the
three rules), for comparison with `checkPass`'s early-return loop. -/
def ruleSatisfied (mode : MatchMode) (caseSensitive : Bool)
    (actualProcessed actualNormalized : Str) (expected : Str) : Bool :=
  let eP := processText caseSensitive expected
  let eN := normalizeText eP
  match mode with
  | MatchMode.exact => decide (actualProcessed = eP)
  | MatchMode.contains => includesSub eN actualNormalized
  | MatchMode.startsWith => eN.isPrefixOf actualNormalized
  | MatchMode.semantic | MatchMode.llmJudge =>
    decide (actualNormalized = eN)
      || (eN ++ [' ']).isPrefixOf actualNormalized
      || (eN ++ [':']).isPrefixOf actualNormalized
      || (eN ++ ['\n']).isPrefixOf actualNormalized
      || (actualNormalized ++ [' ']).isPrefixOf eN
      || actualNormalized.isPrefixOf eN

example : checkPass ["ls".toList] ("ls".toList) MatchMode.semantic false
    = ⟨true, some ("ls".toList), some "exact"⟩ := by decide

example : checkPass ["ls".toList] ("ls -la".toList) MatchMode.semantic false
    = ⟨true, some ("ls".toList), some "startsWith"⟩ := by decide

example : checkPass ["ls -la".toList] ("ls".toList) MatchMode.semantic false
    = ⟨true, some ("ls -la".toList), some "partial"⟩ := by decide

/-- The switch arm grading `llm-judge` is literally the `semantic` arm. -/
theorem matchOne_llmJudge_eq (cs : Bool) (aP aN e : Str) :
    matchOne MatchMode.llmJudge cs aP aN e = matchOne MatchMode.semantic cs aP aN e := rfl

/-- The whole loop treats `llm-judge` and `semantic` identically. -/
theorem checkPassAux_llmJudge_eq (cs : Bool) (aP aN : Str) :
    ∀ L, checkPassAux MatchMode.llmJudge cs aP aN L
      = checkPassAux MatchMode.semantic cs aP aN L
  | [] => rfl
  | e :: rest => by
    simp only [checkPassAux, matchOne_llmJudge_eq,
      checkPassAux_llmJudge_eq cs aP aN rest]

/-- `checkPass` grades `llm-judge` tests with the semantic string matcher. -/
theorem checkPass_llmJudge_eq (acc : List Str) (a : Str) (cs : Bool) :
    checkPass acc a MatchMode.llmJudge cs = checkPass acc a MatchMode.semantic cs :=
  checkPassAux_llmJudge_eq cs _ _ acc

/-- `matchOne` succeeds exactly when the spec-side per-answer rule holds. -/
theorem matchOne_isSome_eq (mode : MatchMode) (cs : Bool) (aP aN e : Str) :
    (matchOne mode cs aP aN e).isSome = ruleSatisfied mode cs aP aN e := by
  cases mode <;>
    simp only [matchOne, ruleSatisfied] <;>
    split_ifs <;>
    rw [Bool.eq_iff_iff] <;>
    simp_all [Bool.or_eq_true, List.isPrefixOf_iff_prefix]

/-- A successful `matchOne` reports a pass on the answer it was given. -/
theorem matchOne_eq_some (mode : MatchMode) (cs : Bool) (aP aN e : Str)
    (r : MatchResult) (h : matchOne mode cs aP aN e = some r) :
    r.passed = true ∧ r.matchedAnswer = some e := by
  cases mode <;>
    simp only [matchOne] at h <;>
    split_ifs at h <;>
    first
      | exact Option.noConfusion h
      | (cases (Option.some.inj h).symm; exact ⟨rfl, rfl⟩)

/-- The loop returns the first acceptable answer satisfying the rule. -/
theorem checkPassAux_find (mode : MatchMode) (cs : Bool) (aP aN : Str) :
    ∀ L, (checkPassAux mode cs aP aN L).matchedAnswer
          = L.find? (ruleSatisfied mode cs aP aN)
      ∧ (checkPassAux mode cs aP aN L).passed
          = (L.find? (ruleSatisfied mode cs aP aN)).isSome
  | [] => by simp [checkPassAux]
  | e :: rest => by
    cases hm : matchOne mode cs aP aN e with
    | some r =>
      have hsat : ruleSatisfied mode cs aP aN e = true := by
        rw [← matchOne_isSome_eq, hm]; rfl
      have hr := matchOne_eq_some mode cs aP aN e r hm
      simp [checkPassAux, hm, List.find?_cons, hsat, hr.1, hr.2]
    | none =>
      have hsat : ruleSatisfied mode cs aP aN e = false := by
        rw [← matchOne_isSome_eq, hm]; rfl
      simp [checkPassAux, hm, List.find?_cons, hsat,
        checkPassAux_find mode cs aP aN rest]

/-- `processText` is the spec's case folding applied to the trimmed string. -/
theorem processText_eq_specCaseFold (cs : Bool) (s : Str) :
    processText cs s = specCaseFold cs (trimJS s) := by
  cases cs <;> rfl

/-- C3 counterexample: with acceptable answer `"ls"` and actual response
`"ls "` (trailing space), Exact mode passes even though the case-folded
strings differ character-for-character — `checkPass` trims both sides before
the strict comparison, contrary to the claim's "no trimming". -/
theorem c3_counterexample_exact_mode_trims_whitespace :
    (checkPass ["ls".toList] ("ls ".toList) MatchMode.exact false).passed = true
      ∧ specCaseFold false ("ls ".toList) ≠ specCaseFold false ("ls".toList) := by
  decide

/-- C3 (amended): Exact-mode evaluation passes iff the trimmed, case-folded
actual response is character-for-character equal to the trimmed, case-folded
form of some acceptable answer; leading/trailing whitespace is trimmed from
both sides, but no whitespace collapsing or quote normalization is applied. -/
theorem c3_exact_mode_iff_trimmed_case_folded_equal :
    ∀ (acc : List Str) (actual : Str) (cs : Bool),
      (checkPass acc actual MatchMode.exact cs).passed = true
        ↔ ∃ e ∈ acc, specCaseFold cs (trimJS actual) = specCaseFold cs (trimJS e) := by
  intro acc actual cs
  rw [checkPass, (checkPassAux_find MatchMode.exact cs _ _ acc).2,
    List.find?_isSome]
  simp only [ruleSatisfied, decide_eq_true_eq, processText_eq_specCaseFold]

/-- C4: in Semantic mode the three rules are tried in order — (1) normalized
equality (`exact`), (2) actual starts with acceptable plus space/colon/newline
(`startsWith`), (3) acceptable starts with actual plus space, or with actual
itself (`partial`) — and the first satisfied rule wins; the four concrete
behaviours from the spec hold. -/
theorem c4_semantic_rules_tried_in_order :
    (∀ (e a : Str) (cs : Bool),
      checkPass [e] a MatchMode.semantic cs =
        (let aN := normalizeText (processText cs a)
         let eN := normalizeText (processText cs e)
         if aN = eN then ⟨true, some e, some "exact"⟩
         else if (eN ++ [' ']).isPrefixOf aN || (eN ++ [':']).isPrefixOf aN
             || (eN ++ ['\n']).isPrefixOf aN then
           ⟨true, some e, some "startsWith"⟩
         else if (aN ++ [' ']).isPrefixOf eN || aN.isPrefixOf eN then
           ⟨true, some e, some "partial"⟩
         else ⟨false, none, none⟩))
    ∧ checkPass ["ls".toList] ("ls".toList) MatchMode.semantic false
        = ⟨true, some ("ls".toList), some "exact"⟩
    ∧ checkPass ["ls".toList] ("ls -la".toList) MatchMode.semantic false
        = ⟨true, some ("ls".toList), some "startsWith"⟩
    ∧ checkPass ["ls -la".toList] ("ls".toList) MatchMode.semantic false
        = ⟨true, some ("ls -la".toList), some "partial"⟩
    ∧ (checkPass ["paris".toList] ("The capital is Lyon".toList)
        MatchMode.semantic false).passed = false := by
  refine ⟨?_, by decide, by decide, by decide, by decide⟩
  intro e a cs
  simp only [checkPass, checkPassAux, matchOne]
  split_ifs <;> rfl

/-- C5: for every match mode, when evaluation passes the reported
`matchedAnswer` is the first acceptable answer in list order that satisfies
the mode's rule (`List.find?`), and `passed` is exactly "such an answer
exists" — so a first-listed answer matching any rule beats later-listed
answers matching higher-priority rules. -/
theorem c5_matched_answer_is_first_satisfying :
    ∀ (mode : MatchMode) (acc : List Str) (actual : Str) (cs : Bool),
      (checkPass acc actual mode cs).matchedAnswer
          = acc.find? (ruleSatisfied mode cs (processText cs actual)
              (normalizeText (processText cs actual)))
        ∧ (checkPass acc actual mode cs).passed
          = (acc.find? (ruleSatisfied mode cs (processText cs actual)
              (normalizeText (processText cs actual)))).isSome := by
  intro mode acc actual cs
  exact checkPassAux_find mode cs _ _ acc

/-- A nonempty list is never a prefix of the empty list. -/
theorem append_singleton_not_prefix_nil (l : Str) (c : Char) :
    (l ++ [c]).isPrefixOf [] = false := by
  cases l <;> rfl

/-- C10 counterexample: with acceptable-answer list `[""]` and actual
response `""`, Semantic mode passes with `matchType = "exact"` (rule 1 fires
first because the first acceptable answer also normalizes to empty), not
`"partial"` as the claim states. -/
theorem c10_counterexample_empty_first_answer_matches_exact :
    (checkPass [("".toList)] ("".toList) MatchMode.semantic false).matchType
        = some "exact"
      ∧ (checkPass [("".toList)] ("".toList) MatchMode.semantic false).matchType
        ≠ some "partial" := by
  decide

/-- C10 (amended): in Semantic mode an actual response that normalizes to
the empty string always passes against a nonempty acceptable list, with the
first-listed answer as `matchedAnswer`; the match kind is `"partial"` when
the first answer does not itself normalize to empty (rule 3 accepts the
empty prefix), and `"exact"` when it does (rule 1 fires first). -/
theorem c10_empty_normalized_actual_always_passes :
    ∀ (e : Str) (rest : List Str) (a : Str) (cs : Bool),
      normalizeText (processText cs a) = [] →
      checkPass (e :: rest) a MatchMode.semantic cs =
        (if normalizeText (processText cs e) = []
         then ⟨true, some e, some "exact"⟩
         else ⟨true, some e, some "partial"⟩) := by
  intro e rest a cs hA
  simp only [checkPass, checkPassAux, matchOne, hA]
  by_cases he : normalizeText (processText cs e) = []
  · simp [he]
  · have h2 : ∀ c : Char,
        ((normalizeText (processText cs e) ++ [c]).isPrefixOf ([] : Str)) = false :=
      fun c => append_singleton_not_prefix_nil _ c
    have h3 : List.isPrefixOf ([] : Str) (normalizeText (processText cs e)) = true := by
      cases normalizeText (processText cs e) <;> rfl
    simp [he, h2, Ne.symm he, h3]

/-- C10 witness: the empty actual response passes against `["ls"]` with the
first-listed answer and the `"partial"` kind. -/
theorem c10_empty_normalized_actual_always_passes_witness :
    checkPass ["ls".toList] ("".toList) MatchMode.semantic false
      = ⟨true, some ("ls".toList), some "partial"⟩ := by
  have h := c10_empty_normalized_actual_always_passes ("ls".toList) [] ("".toList)
    false (by decide)
  rw [h]
  decide

/-- C1: the benchmark runner records `passed` for an `llm-judge` test from
the string-matching `checkPass` outcome — the `switch` in `checkPass` sends
`'llm-judge'` into its `default:` (semantic) arm, and the judge protocol is
never consulted; concretely, an `llm-judge` test with acceptable answer
`"ls"` and completed response `"ls -la"` is marked passed by the semantic
string matcher. -/
theorem c1_llm_judge_tests_graded_by_string_matcher :
    (∀ (i : Nat) (pr : String) (acc : List Str) (cat : String)
        (cs : Option Bool) (text : Str) (lat : Nat),
      (recordRow ⟨i, pr, acc, cat, some MatchMode.llmJudge, cs⟩
          (InferOutcome.completed text lat)).passed
        = (checkPass acc (trimJS text) MatchMode.semantic (cs.getD false)).passed)
    ∧ (recordRow ⟨1, "list all files", ["ls".toList], "basic",
          some MatchMode.llmJudge, none⟩
        (InferOutcome.completed ("ls -la".toList) 5)).passed = true := by
  constructor
  · intro i pr acc cat cs text lat
    simp only [recordRow, testPassed, Option.getD_some, checkPass_llmJudge_eq]
  · decide

/-- C2 counterexample: when the underlying judge call rejects (a transport
error), `callJudge` propagates the exception instead of returning a
`JudgeResult` with `pass = false` — only `parseJudgeResponse` sits inside
its try/catch. -/
theorem c2_counterexample_transport_error_propagates :
    callJudge (Except.error "connect ECONNREFUSED")
        [⟨"helpful".toList, "h".toList⟩] 7
      = Except.error "connect ECONNREFUSED" := rfl

/-- C2 (amended): `callJudge` converts only parse failures into the zeroed
fallback `JudgeResult` (`pass = false`, `score = 0`, empty `criteriaScores`,
reasoning embedding the raw reply); an error thrown by the underlying judge
call itself propagates unchanged to the caller. -/
theorem c2_call_judge_catches_only_parse_failures :
    (∀ (e : String) (c : List JudgeCriteria) (th : Rat),
      callJudge (Except.error e) c th = Except.error e)
    ∧ (∀ (text : Str) (c : List JudgeCriteria) (th : Rat) (msg : String),
      parseJudgeResponse text c th = Except.error msg →
      callJudge (Except.ok text) c th
        = Except.ok ⟨false, 0, ("Failed to parse judge response: ").toList ++ text, []⟩) := by
  constructor
  · intro e c th
    rfl
  · intro text c th msg h
    simp only [callJudge, h]

/-- C2 witness: on the unparseable reply `"oops"`, `callJudge` returns the
fallback result embedding the raw reply. -/
theorem c2_call_judge_catches_only_parse_failures_witness :
    callJudge (Except.ok ("oops".toList)) [] 7
      = Except.ok ⟨false, 0,
          ("Failed to parse judge response: ").toList ++ ("oops").toList, []⟩ :=
  c2_call_judge_catches_only_parse_failures.2 ("oops".toList) [] 7
    "SyntaxError: invalid JSON" (by rfl)

/-- Inversion for the criteria-loop body: an entry is produced only from a
numeric raw score, keyed by the criterion's name and clamped. -/
theorem scoreEntryOf_eq_some (j : Json) (c : JudgeCriteria) (p : Str × Rat)
    (h : scoreEntryOf j c = some p) :
    ∃ q, scoreField j c.name = some (Json.num q) ∧ p = (c.name, clampScore q) := by
  unfold scoreEntryOf at h
  split at h
  next q heq => exact ⟨q, heq, (Option.some.inj h).symm⟩
  next => exact Option.noConfusion h

/-- The clamp really lands in `[0, 10]`. -/
theorem clampScore_bounds (q : Rat) : 0 ≤ clampScore q ∧ clampScore q ≤ 10 :=
  ⟨le_max_left 0 _, max_le (by norm_num) (min_le_left 10 q)⟩

/-- Names whose raw score is missing or non-numeric never acquire a binding
in the criteria-scores record. -/
theorem listLookup_filterMap_not_num (j : Json) (nm : Str)
    (hnone : ∀ q : Rat, ¬ scoreField j nm = some (Json.num q)) :
    ∀ L : List JudgeCriteria,
      listLookup (L.filterMap (scoreEntryOf j)) nm = none
  | [] => rfl
  | c :: rest => by
    cases hc : scoreEntryOf j c with
    | none =>
      simpa [List.filterMap_cons, hc] using
        listLookup_filterMap_not_num j nm hnone rest
    | some p =>
      obtain ⟨q, hsf, rfl⟩ := scoreEntryOf_eq_some j c p hc
      have hne : c.name ≠ nm := fun h => hnone q (h ▸ hsf)
      simp [List.filterMap_cons, hc, listLookup, hne,
        listLookup_filterMap_not_num j nm hnone rest]

/-- For every criterion in the list, the record binds its name exactly when
the raw score is numeric, to the clamped value. -/
theorem listLookup_filterMap_scores (j : Json) :
    ∀ (L : List JudgeCriteria) (c : JudgeCriteria), c ∈ L →
      listLookup (L.filterMap (scoreEntryOf j)) c.name
        = (match scoreField j c.name with
           | some (Json.num q) => some (clampScore q)
           | _ => none)
  | [], c => fun hc => absurd hc (List.not_mem_nil c)
  | c₀ :: rest, c => by
    intro hc
    cases hc₀ : scoreEntryOf j c₀ with
    | some p =>
      obtain ⟨q, hsf, rfl⟩ := scoreEntryOf_eq_some j c₀ p hc₀
      by_cases hname : c₀.name = c.name
      · simp only [List.filterMap_cons, hc₀, listLookup, if_pos hname]
        rw [← hname, hsf]
      · simp only [List.filterMap_cons, hc₀, listLookup, if_neg hname]
        rcases List.mem_cons.1 hc with rfl | hmem
        · exact absurd rfl hname
        · exact listLookup_filterMap_scores j rest c hmem
    | none =>
      simp only [List.filterMap_cons, hc₀]
      rcases List.mem_cons.1 hc with rfl | hmem
      · have hnone : ∀ q : Rat, ¬ scoreField j c.name = some (Json.num q) := by
          intro q hq
          rw [scoreEntryOf, hq] at hc₀
          exact Option.noConfusion hc₀
        rw [listLookup_filterMap_not_num j c.name hnone rest]
        cases hsf : scoreField j c.name with
        | none => rfl
        | some v =>
          cases v with
          | num q => exact absurd hsf (hnone q)
          | null => rfl
          | bool b => rfl
          | str s => rfl
          | arr l => rfl
          | obj f => rfl
      · exact listLookup_filterMap_scores j rest c hmem

/-- Every value stored in the criteria-scores record is clamped. -/
theorem listLookup_filterMap_bounds (j : Json) :
    ∀ (L : List JudgeCriteria) (nm : Str) (v : Rat),
      listLookup (L.filterMap (scoreEntryOf j)) nm = some v → 0 ≤ v ∧ v ≤ 10
  | [] => by
    intro nm v h
    exact Option.noConfusion h
  | c :: rest => by
    intro nm v h
    cases hc : scoreEntryOf j c with
    | none =>
      rw [List.filterMap_cons, hc] at h
      exact listLookup_filterMap_bounds j rest nm v h
    | some p =>
      obtain ⟨q, hsf, rfl⟩ := scoreEntryOf_eq_some j c p hc
      rw [List.filterMap_cons, hc, listLookup] at h
      by_cases hnm : c.name = nm
      · rw [if_pos hnm] at h
        cases Option.some.inj h
        exact clampScore_bounds q
      · rw [if_neg hnm] at h
        exact listLookup_filterMap_bounds j rest nm v h

/-- C6 counterexample: the reply `"null"` parses as JSON, yet
`parseJudgeResponse` throws (the property accesses on the parsed `null`
raise a `TypeError`) instead of returning a `JudgeResult`. -/
theorem c6_counterexample_null_reply_throws :
    jsonParse (stripFence (trimJS ("null".toList))) = some Json.null
      ∧ parseJudgeResponse ("null".toList) [⟨"helpful".toList, "h".toList⟩] 7
        = Except.error "TypeError: cannot read properties of null" :=
  ⟨rfl, rfl⟩

/-- C6 (amended): for every judge reply whose text (optionally fenced)
parses as JSON to a value other than `null`, `parseJudgeResponse` returns a
`JudgeResult` in which every stored criterion score and the overall score
are clamped into `[0, 10]`; a criterion's name is bound exactly when its raw
score is numeric (missing/non-numeric scores are omitted, not defaulted);
`pass` is the reply's boolean `pass` field when present and otherwise
`overall >= passThreshold`; and `reasoning` is the reply's `reasoning` when
it is a string and empty otherwise.  A reply parsing to `null` throws
instead. -/
theorem c6_parse_judge_response_clamps_and_derives :
    ∀ (text : Str) (criteria : List JudgeCriteria) (th : Rat) (j : Json),
      jsonParse (stripFence (trimJS text)) = some j →
      j ≠ Json.null →
      ∃ r, parseJudgeResponse text criteria th = Except.ok r
        ∧ (∀ (nm : Str) (v : Rat),
            listLookup r.criteriaScores nm = some v → 0 ≤ v ∧ v ≤ 10)
        ∧ 0 ≤ r.score ∧ r.score ≤ 10
        ∧ (∀ c ∈ criteria, listLookup r.criteriaScores c.name
             = (match scoreField j c.name with
                | some (Json.num q) => some (clampScore q)
                | _ => none))
        ∧ r.score = (match jsonGet j (("overall").toList) with
             | some (Json.num q) => clampScore q
             | _ => 0)
        ∧ r.pass = (match jsonGet j (("pass").toList) with
             | some (Json.bool b) => b
             | _ => decide (th ≤ r.score))
        ∧ r.reasoning = (match jsonGet j (("reasoning").toList) with
             | some (Json.str s) => s
             | _ => []) := by
  intro text criteria th j hp hn
  have hok : parseJudgeResponse text criteria th
      = Except.ok (judgeResultOfJson j criteria th) := by
    simp only [parseJudgeResponse, hp]
  refine ⟨judgeResultOfJson j criteria th, hok, ?_, ?_, ?_, ?_, ?_, ?_, ?_⟩
  · intro nm v h
    exact listLookup_filterMap_bounds j criteria nm v h
  · show 0 ≤ (judgeResultOfJson j criteria th).score
    simp only [judgeResultOfJson]
    split
    · exact (clampScore_bounds _).1
    · norm_num
  · show (judgeResultOfJson j criteria th).score ≤ 10
    simp only [judgeResultOfJson]
    split
    · exact (clampScore_bounds _).2
    · norm_num
  · intro c hc
    exact listLookup_filterMap_scores j criteria c hc
  · rfl
  · rfl
  · rfl

/-- C6 witness: a fenced reply with an out-of-range criterion score (15) and
overall (11) round-trips with both clamped to 10, `pass` taken from the
boolean field, and `reasoning` from the string field. -/
theorem c6_parse_judge_response_clamps_and_derives_witness :
    ∃ r, parseJudgeResponse
        (("\x60\x60\x60json\n\x7b\"scores\": \x7b\"h\": 15\x7d, \"overall\": 11, \"reasoning\": \"ok\", \"pass\": true\x7d\n\x60\x60\x60").toList)
        [⟨("h").toList, ("helpfulness").toList⟩] 7 = Except.ok r
      ∧ (∀ (nm : Str) (v : Rat),
          listLookup r.criteriaScores nm = some v → 0 ≤ v ∧ v ≤ 10)
      ∧ 0 ≤ r.score ∧ r.score ≤ 10
      ∧ (∀ c ∈ [(⟨("h").toList, ("helpfulness").toList⟩ : JudgeCriteria)],
          listLookup r.criteriaScores c.name
            = (match scoreField (Json.obj
                [(("scores").toList, Json.obj [(("h").toList, Json.num 15)]),
                 (("overall").toList, Json.num 11),
                 (("reasoning").toList, Json.str (("ok").toList)),
                 (("pass").toList, Json.bool true)]) c.name with
               | some (Json.num q) => some (clampScore q)
               | _ => none))
      ∧ r.score = (match jsonGet (Json.obj
            [(("scores").toList, Json.obj [(("h").toList, Json.num 15)]),
             (("overall").toList, Json.num 11),
             (("reasoning").toList, Json.str (("ok").toList)),
             (("pass").toList, Json.bool true)]) (("overall").toList) with
           | some (Json.num q) => clampScore q
           | _ => 0)
      ∧ r.pass = (match jsonGet (Json.obj
            [(("scores").toList, Json.obj [(("h").toList, Json.num 15)]),
             (("overall").toList, Json.num 11),
             (("reasoning").toList, Json.str (("ok").toList)),
             (("pass").toList, Json.bool true)]) (("pass").toList) with
           | some (Json.bool b) => b
           | _ => decide (7 ≤ r.score))
      ∧ r.reasoning = (match jsonGet (Json.obj
            [(("scores").toList, Json.obj [(("h").toList, Json.num 15)]),
             (("overall").toList, Json.num 11),
             (("reasoning").toList, Json.str (("ok").toList)),
             (("pass").toList, Json.bool true)]) (("reasoning").toList) with
           | some (Json.str s) => s
           | _ => []) :=
  c6_parse_judge_response_clamps_and_derives
    (("\x60\x60\x60json\n\x7b\"scores\": \x7b\"h\": 15\x7d, \"overall\": 11, \"reasoning\": \"ok\", \"pass\": true\x7d\n\x60\x60\x60").toList)
    [⟨("h").toList, ("helpfulness").toList⟩] 7
    (Json.obj
      [(("scores").toList, Json.obj [(("h").toList, Json.num 15)]),
       (("overall").toList, Json.num 11),
       (("reasoning").toList, Json.str (("ok").toList)),
       (("pass").toList, Json.bool true)])
    (by rfl) (fun h => Json.noConfusion h)

/-- C7: for every input text that is not valid JSON after optional
code-fence stripping, `parseJudgeResponse` raises a parse failure and never
returns a `JudgeResult`; the zeroed fallback is produced only by its caller
`callJudge`, not inside the parser. -/
theorem c7_invalid_json_raises_parse_failure :
    ∀ (text : Str) (criteria : List JudgeCriteria) (th : Rat),
      jsonParse (stripFence (trimJS text)) = none →
      parseJudgeResponse text criteria th
          = Except.error "SyntaxError: invalid JSON"
        ∧ callJudge (Except.ok text) criteria th
          = Except.ok ⟨false, 0,
              ("Failed to parse judge response: ").toList ++ text, []⟩ := by
  intro text criteria th h
  have hp : parseJudgeResponse text criteria th
      = Except.error "SyntaxError: invalid JSON" := by
    simp only [parseJudgeResponse, h]
  exact ⟨hp, by simp only [callJudge, hp]⟩

/-- C7 witness: the literal `"not json"` is rejected by the parser and turned
into the zeroed fallback only by `callJudge`. -/
theorem c7_invalid_json_raises_parse_failure_witness :
    parseJudgeResponse ("not json".toList) [⟨("helpful").toList, ("h").toList⟩] 7
        = Except.error "SyntaxError: invalid JSON"
      ∧ callJudge (Except.ok ("not json".toList))
          [⟨("helpful").toList, ("h").toList⟩] 7
        = Except.ok ⟨false, 0,
            ("Failed to parse judge response: ").toList ++ ("not json").toList, []⟩ :=
  c7_invalid_json_raises_parse_failure ("not json".toList)
    [⟨("helpful").toList, ("h").toList⟩] 7 (by rfl)

/-- How one category update reads back: the updated category gains one
`total` (and one `passed` if the test passed); all others are untouched. -/
theorem lookupCategory_bump (cat : String) (f : Bool) (c : String) :
    ∀ m : List (String × CategoryResult),
      lookupCategory (bumpCategory cat f m) c
        = if cat = c
          then ⟨(lookupCategory m c).passed + (if f then 1 else 0),
                (lookupCategory m c).total + 1⟩
          else lookupCategory m c
  | [] => by
    simp only [bumpCategory, lookupCategory]
    split_ifs <;> simp
  | (k, v) :: rest => by
    by_cases h1 : k = cat
    · subst h1
      by_cases h2 : k = c
      · subst h2
        simp [bumpCategory, lookupCategory]
      · simp [bumpCategory, lookupCategory, h2]
    · by_cases h2 : k = c
      · subst h2
        have h3 : ¬(cat = k) := fun h => h1 h.symm
        simp [bumpCategory, lookupCategory, h1, h3]
      · simp [bumpCategory, lookupCategory, h1, h2, lookupCategory_bump cat f c rest]

/-- Reading a category out of the whole fold: totals count the tests of that
category, passes count the passing tests of that category, on top of the
initial accumulator. -/
theorem lookupCategory_foldl (c : String) :
    ∀ (rows : List (BenchTest × InferOutcome)) (m : List (String × CategoryResult)),
      lookupCategory
          (rows.foldl (fun acc p => bumpCategory p.1.category (testPassed p.1 p.2) acc) m) c
        = ⟨(lookupCategory m c).passed
            + (rows.filter fun p => decide (p.1.category = c) && testPassed p.1 p.2).length,
           (lookupCategory m c).total
            + (rows.filter fun p => decide (p.1.category = c)).length⟩
  | [], m => by simp
  | p :: rest, m => by
    rw [List.foldl_cons, lookupCategory_foldl c rest _, lookupCategory_bump]
    by_cases h1 : p.1.category = c
    · by_cases h2 : testPassed p.1 p.2 <;>
        simp [h1, h2, List.filter_cons] <;> omega
    · simp [h1, List.filter_cons]

/-- Filtering with an extra conjunct never keeps more elements. -/
theorem length_filter_and_le {α : Type} (p q : α → Bool) :
    ∀ l : List α, (l.filter fun a => p a && q a).length ≤ (l.filter p).length
  | [] => Nat.le_refl 0
  | a :: t => by
    by_cases hp : p a <;> by_cases hq : q a <;>
      simp [List.filter_cons, hp, hq] <;>
      first
        | exact length_filter_and_le p q t
        | exact Nat.le_succ_of_le (length_filter_and_le p q t)

/-- C9: after a benchmark run, for every category `c` the recorded
`categories[c].total` equals the number of input tests whose category is `c`
(regardless of how each test ended), and `categories[c].passed` never exceeds
it; absent categories read as `⟨0, 0⟩` and indeed count zero tests. -/
theorem c9_category_totals_count_input_tests :
    ∀ (rows : List (BenchTest × InferOutcome)) (c : String),
      (lookupCategory (runBenchmark rows).categories c).total
          = (rows.filter fun p => decide (p.1.category = c)).length
        ∧ (lookupCategory (runBenchmark rows).categories c).passed
          ≤ (lookupCategory (runBenchmark rows).categories c).total := by
  intro rows c
  have hcat : (runBenchmark rows).categories = categoriesOf rows := rfl
  rw [hcat, categoriesOf, lookupCategory_foldl c rows []]
  refine ⟨by simp [lookupCategory], ?_⟩
  simp only [lookupCategory, Nat.zero_add]
  exact length_filter_and_le _ _ rows

/-- One failing test keeps every category's `passed` tally at zero. -/
theorem bumpCategory_passed_zero (cat : String) :
    ∀ m : List (String × CategoryResult),
      (∀ kv ∈ m, kv.2.passed = 0) →
      ∀ kv ∈ bumpCategory cat false m, kv.2.passed = 0
  | [] => by
    intro _ kv hkv
    simp only [bumpCategory, List.mem_singleton] at hkv
    subst hkv
    rfl
  | (k, v) :: rest => by
    intro hm kv hkv
    by_cases h1 : k = cat
    · simp only [bumpCategory, if_pos h1, List.mem_cons] at hkv
      rcases hkv with rfl | hkv
      · have := hm (k, v) (List.mem_cons_self _ _)
        simpa using this
      · exact hm kv (List.mem_cons_of_mem _ hkv)
    · simp only [bumpCategory, if_neg h1, List.mem_cons] at hkv
      rcases hkv with rfl | hkv
      · exact hm (k, v) (List.mem_cons_self _ _)
      · exact bumpCategory_passed_zero cat rest
          (fun kv h => hm kv (List.mem_cons_of_mem _ h)) kv hkv

/-- A run in which no test passes leaves every category's `passed` at zero. -/
theorem categoriesOf_passed_zero :
    ∀ (rows : List (BenchTest × InferOutcome)) (m : List (String × CategoryResult)),
      (∀ p ∈ rows, testPassed p.1 p.2 = false) →
      (∀ kv ∈ m, kv.2.passed = 0) →
      ∀ kv ∈ rows.foldl
          (fun acc p => bumpCategory p.1.category (testPassed p.1 p.2) acc) m,
        kv.2.passed = 0
  | [], m => fun _ hm => hm
  | p :: rest, m => by
    intro hrows hm
    rw [List.foldl_cons]
    have hp := hrows p (List.mem_cons_self _ _)
    rw [hp]
    exact categoriesOf_passed_zero rest _
      (fun q hq => hrows q (List.mem_cons_of_mem _ hq))
      (bumpCategory_passed_zero _ m hm)

/-- C8 counterexample: a two-test run with latencies 1 ms and 2 ms (no
errors) records `avgLatencyMs = 2`, while the mean of the included latencies
is 3/2 — the source stores `Math.round(sum / length)`, not the mean. -/
theorem c8_counterexample_avg_is_rounded_not_mean :
    (runBenchmark
        [(⟨1, "p1", ["ls".toList], "basic", none, none⟩,
            InferOutcome.completed ("ls".toList) 1),
         (⟨2, "p2", ["ls".toList], "basic", none, none⟩,
            InferOutcome.completed ("ls".toList) 2)]).summary.avgLatencyMs
      = some 2
    ∧ mkRat (1 + 2) 2 ≠ (2 : Rat) := by
  decide

/-- C8 (amended): `summary.avgLatencyMs` is the `Math.round`ed (half-up) mean
of `latencyMs` over exactly those recorded results whose `latencyMs` is
truthy (nonzero) and whose recorded actual response does not start with
`"Error:"`, and is undefined when no result qualifies; in particular, for a
run over N tests in which every test times out, `summary.total = N`,
`summary.passed = 0`, and `summary.avgLatencyMs` is undefined. -/
theorem c8_avg_latency_is_rounded_mean_of_non_error_results :
    (∀ rows : List (BenchTest × InferOutcome),
      (runBenchmark rows).summary.avgLatencyMs =
        (let v : List Nat := (((runBenchmark rows).results.filter fun r =>
            (r.latencyMs != 0) && !(errMarker.isPrefixOf r.actual)).map
            fun r => r.latencyMs)
         if v.length ≠ 0 then some (jsRound (mkRat v.sum v.length)) else none))
    ∧ (∀ rows : List (BenchTest × InferOutcome),
        (∀ p ∈ rows, ∃ lat, p.2 = InferOutcome.failed (some "Timeout") lat) →
        (runBenchmark rows).summary.total = rows.length
          ∧ (runBenchmark rows).summary.passed = 0
          ∧ (runBenchmark rows).summary.avgLatencyMs = none) := by
  constructor
  · intro rows
    rfl
  · intro rows h
    refine ⟨rfl, ?_, ?_⟩
    · have hall : ∀ kv ∈ categoriesOf rows, kv.2.passed = 0 := by
        apply categoriesOf_passed_zero rows []
        · intro p hp
          obtain ⟨lat, he⟩ := h p hp
          rw [he]
          rfl
        · intro kv hkv
          exact absurd hkv (List.not_mem_nil kv)
      show ((categoriesOf rows).map fun kv => kv.2.passed).sum = 0
      apply List.sum_eq_zero
      intro x hx
      obtain ⟨kv, hkv, rfl⟩ := List.mem_map.1 hx
      exact hall kv hkv
    · have hfil : ((rows.map fun p => recordRow p.1 p.2).filter fun r =>
          (r.latencyMs != 0) && !(errMarker.isPrefixOf r.actual)) = [] := by
        rw [List.filter_eq_nil_iff]
        intro r hr
        obtain ⟨p, hp, rfl⟩ := List.mem_map.1 hr
        obtain ⟨lat, he⟩ := h p hp
        rw [he]
        have hmark : errMarker.isPrefixOf
            (recordRow p.1 (InferOutcome.failed (some "Timeout") lat)).actual
              = true := by
          show errMarker.isPrefixOf
            (trimJS (("Error: ").toList ++ ("Timeout").toList)) = true
          decide
        simp [hmark]
      simp only [runBenchmark]
      rw [hfil]
      simp

/-- C8 witness: a single-test run that times out has `total = 1`,
`passed = 0` and no average latency. -/
theorem c8_avg_latency_witness :
    (runBenchmark [(⟨1, "p", ["ls".toList], "basic", none, none⟩,
        InferOutcome.failed (some "Timeout") 30000)]).summary.total = 1
      ∧ (runBenchmark [(⟨1, "p", ["ls".toList], "basic", none, none⟩,
          InferOutcome.failed (some "Timeout") 30000)]).summary.passed = 0
      ∧ (runBenchmark [(⟨1, "p", ["ls".toList], "basic", none, none⟩,
          InferOutcome.failed (some "Timeout") 30000)]).summary.avgLatencyMs = none :=
  c8_avg_latency_is_rounded_mean_of_non_error_results.2
    [(⟨1, "p", ["ls".toList], "basic", none, none⟩,
        InferOutcome.failed (some "Timeout") 30000)]
    (by
      intro p hp
      rw [List.mem_singleton] at hp
      subst hp
      exact ⟨30000, rfl⟩)

